import Mathlib

/-!
Verification development for the digibib-extract page-decoding pipeline.

Shallow embedding of:
  * the token binary format (`src/token.rs`, the `Token` type consumed by the
    typesetter `encode_page`; note that `src/text.rs` also contains a stale,
    superseded duplicate `Token` enum whose signatures do not match
    `main.rs`/`encoder.rs` — the pipeline's token type is the one in
    `src/token.rs` and that is what is modelled here);
  * the page lexer loop (`Page::lex` in `src/text.rs`);
  * the page locator (`Pages::load_page` in `src/text.rs`);
  * the typesetting state machine (`encode_page` in `src/encoder.rs`);
  * the structured sink (`src/for_flutter_encoder.rs`).

Machine integers are modelled as `Nat` with explicit wrap-around (`% 2 ^ 64`,
`% 65536`) where the Rust code can overflow; overflowing arithmetic is modelled
with release-build (wrapping) semantics.  Fallible operations return an
`Outcome` that distinguishes an `Err` return from a Rust panic (`aborted`).
-/

/-! ## Byte-level helpers -/

/-- Little-endian value of a byte list (byte 0 is least significant). -/
def leVal : List Nat → Nat
  | [] => 0
  | b :: r => b + 256 * leVal r

/-- `r[i]`, defaulting to 0 when out of range (used only to *compute* an
operand length that is then checked against the available bytes). -/
def nthByte (r : List Nat) (i : Nat) : Nat := (r.get? i).getD 0

/-! ## Windows-1252 decoding (`encoding_rs::WINDOWS_1252.decode`)

Bytes 0x00–0x7F and 0xA0–0xFF map to the code point of the byte value;
0x80–0x9F map through the Windows-1252 table (undefined slots 0x81, 0x8D,
0x8F, 0x90, 0x9D decode to the corresponding C1 controls, as `encoding_rs`
does). -/

def win1252Char (b : Nat) : Char :=
  if b = 0x80 then Char.ofNat 0x20AC
  else if b = 0x82 then Char.ofNat 0x201A
  else if b = 0x83 then Char.ofNat 0x0192
  else if b = 0x84 then Char.ofNat 0x201E
  else if b = 0x85 then Char.ofNat 0x2026
  else if b = 0x86 then Char.ofNat 0x2020
  else if b = 0x87 then Char.ofNat 0x2021
  else if b = 0x88 then Char.ofNat 0x02C6
  else if b = 0x89 then Char.ofNat 0x2030
  else if b = 0x8A then Char.ofNat 0x0160
  else if b = 0x8B then Char.ofNat 0x2039
  else if b = 0x8C then Char.ofNat 0x0152
  else if b = 0x8E then Char.ofNat 0x017D
  else if b = 0x91 then Char.ofNat 0x2018
  else if b = 0x92 then Char.ofNat 0x2019
  else if b = 0x93 then Char.ofNat 0x201C
  else if b = 0x94 then Char.ofNat 0x201D
  else if b = 0x95 then Char.ofNat 0x2022
  else if b = 0x96 then Char.ofNat 0x2013
  else if b = 0x97 then Char.ofNat 0x2014
  else if b = 0x98 then Char.ofNat 0x02DC
  else if b = 0x99 then Char.ofNat 0x2122
  else if b = 0x9A then Char.ofNat 0x0161
  else if b = 0x9B then Char.ofNat 0x203A
  else if b = 0x9C then Char.ofNat 0x0153
  else if b = 0x9E then Char.ofNat 0x017E
  else if b = 0x9F then Char.ofNat 0x0178
  else Char.ofNat (b % 256)

def win1252 (l : List Nat) : String := String.mk (l.map win1252Char)

/-! ## UTF-8 lossy decoding (`String::from_utf8_lossy`)

Standard WHATWG decoding: invalid sequences are replaced by U+FFFD, one
replacement per maximal subpart. -/

def replChar : Char := Char.ofNat 0xFFFD

def utf8LossyChars : List Nat → List Char
  | [] => []
  | b :: rest =>
    if b < 0x80 then
      Char.ofNat b :: utf8LossyChars rest
    else if b < 0xC2 then
      replChar :: utf8LossyChars rest
    else if b < 0xE0 then
      match rest with
      | [] => [replChar]
      | c :: rest2 =>
        if 0x80 ≤ c ∧ c ≤ 0xBF then
          Char.ofNat ((b - 0xC0) * 0x40 + (c - 0x80)) :: utf8LossyChars rest2
        else replChar :: utf8LossyChars (c :: rest2)
    else if b < 0xF0 then
      match rest with
      | [] => [replChar]
      | c :: rest2 =>
        if (if b = 0xE0 then 0xA0 ≤ c ∧ c ≤ 0xBF
            else if b = 0xED then 0x80 ≤ c ∧ c ≤ 0x9F
            else 0x80 ≤ c ∧ c ≤ 0xBF) then
          match rest2 with
          | [] => [replChar]
          | d :: rest3 =>
            if 0x80 ≤ d ∧ d ≤ 0xBF then
              Char.ofNat ((b - 0xE0) * 0x1000 + (c - 0x80) * 0x40 + (d - 0x80)) ::
                utf8LossyChars rest3
            else replChar :: utf8LossyChars (d :: rest3)
        else replChar :: utf8LossyChars (c :: rest2)
    else if b < 0xF5 then
      match rest with
      | [] => [replChar]
      | c :: rest2 =>
        if (if b = 0xF0 then 0x90 ≤ c ∧ c ≤ 0xBF
            else if b = 0xF4 then 0x80 ≤ c ∧ c ≤ 0x8F
            else 0x80 ≤ c ∧ c ≤ 0xBF) then
          match rest2 with
          | [] => [replChar]
          | d :: rest3 =>
            if 0x80 ≤ d ∧ d ≤ 0xBF then
              match rest3 with
              | [] => [replChar]
              | e :: rest4 =>
                if 0x80 ≤ e ∧ e ≤ 0xBF then
                  Char.ofNat ((b - 0xF0) * 0x40000 + (c - 0x80) * 0x1000 +
                      (d - 0x80) * 0x40 + (e - 0x80)) :: utf8LossyChars rest4
                else replChar :: utf8LossyChars (e :: rest4)
            else replChar :: utf8LossyChars (d :: rest3)
        else replChar :: utf8LossyChars (c :: rest2)
    else replChar :: utf8LossyChars rest

def utf8Lossy (l : List Nat) : String := String.mk (utf8LossyChars l)

/-! ## The token type (`src/token.rs`) -/

inductive Token where
  | Blanks (n : Nat)
  | Word (space_at_end : Bool) (data : List Nat)
  | HardCarriageReturn | EndOfPage | ItalicsOn | ItalicsOff | BoldOn | BoldOff
  | FontPreset (n : Nat) | Ly
  | Image (width : Nat) (name : String)
  | ImageLink (name : String) | EndLink | Font (n : Nat) | FileName (name : String)
  | Concordance (n : Nat) | NodeNumber (n : Nat) | SuperScriptOn | SuperScriptOff
  | Sigil (name : String) | Header | HypenAtEol | UnderlineOn | UnderlineOff
  | GreekOn | GreekOff | OneBlank | VerticalLineOn | VerticalLineOff | TD | Null
  | PageLink (page_number : Nat) (name : String)
  | IDStart (n : Nat) | IDEnd (n : Nat) | SubscriptOn | SubscriptOff
  | Color (n : Nat) | InlineImage (width : Nat) (height : Nat) (name : String)
  | SearchWord (name : String) | FontSize (n : Nat) | Copyright (n : Nat)
  | AutoLink (n : Nat) | SoftCarriageReturn | InvisibleHyphen
  | LetterSpacingOn | LetterSpacingOff | HalfLineSpacing
  | ListItemStart | ListItemEnd | UnorderedListStart | UnorderedListEnd
  | SetX (n : Nat) | SV (n : Nat) | SVLemmaBegin (name : String) | SVLemmaStop
  | CenteredOn | CenteredOff | AlignRightOn | AlignRightOff | EOn | EOff
  | BibIndex (n : Nat) | NotFirstLine | Thumb | EndNew (bytes : List Nat)
  | UrlBegin (name : String) | UrlEnd | WordAnchor | ThumbWWW | S
  | NoJustifyOn | NoJustifyOff | NextBlankFixed
  | WordRest (space_at_end : Bool) (data : String)
  | WordIncomplete (name : String)
  | HyphenCK | HebrewOn | HebrewOff | NodeNumber2 (n : Nat)
  | StrikeThroughOn | StrikeThroughOff | SetY (n : Nat) | Cor (n : Nat) | EndCor
  | DashedLine
  | Unknown (raw : List Nat) (decoded : String)

/-- Opcode bytes that match some variant's `magic` in `src/token.rs`
(0x00–0x19, 0x1B–0x1F, 0x80–0xB4, 0xEC, 0xFF; 0x1A and 0x20–0x7F match none). -/
def opcodeKnown (b : Nat) : Bool :=
  b ≤ 25 || (27 ≤ b && b ≤ 31) || (128 ≤ b && b ≤ 180) || b = 236 || b = 255

/-- Number of operand bytes after the opcode byte, given the bytes `r` that
follow the opcode.  For `Name`-carrying variants this includes the length
prefix plus the announced count.  `Word` (opcode 1) masks its length byte with
0x7F; `WordRest` (opcode 0xAA) uses the full length byte as its count. -/
def operandLen (b : Nat) (r : List Nat) : Nat :=
  if b = 0 then 1
  else if b = 1 then 1 + nthByte r 0 % 128
  else if b = 8 then 1
  else if b = 10 then 5 + nthByte r 4
  else if b = 11 then 1 + nthByte r 0
  else if b = 13 then 1
  else if b = 14 then 1 + nthByte r 0
  else if b = 15 then 2
  else if b = 16 then 2
  else if b = 19 then 1 + nthByte r 0
  else if b = 128 then 5 + nthByte r 4
  else if b = 129 then 1
  else if b = 130 then 1
  else if b = 133 then 1
  else if b = 134 then 5 + nthByte r 4
  else if b = 135 then 1 + nthByte r 0
  else if b = 136 then 1
  else if b = 137 then 1
  else if b = 138 then 4
  else if b = 148 then 2
  else if b = 149 then 8
  else if b = 150 then 1 + nthByte r 0
  else if b = 158 then 4
  else if b = 161 then 3
  else if b = 162 then 1 + nthByte r 0
  else if b = 170 then 1 + nthByte r 0
  else if b = 171 then 1 + nthByte r 0
  else if b = 175 then 4
  else if b = 178 then 2
  else if b = 179 then 4
  else 0

/-- Build the token for known opcode `b` from exactly its operand bytes. -/
def mkToken (b : Nat) (ops : List Nat) : Token :=
  match b with
  | 0 => .Blanks (nthByte ops 0)
  | 1 => .Word (decide (128 ≤ nthByte ops 0)) (ops.drop 1)
  | 2 => .HardCarriageReturn
  | 3 => .EndOfPage
  | 4 => .ItalicsOn
  | 5 => .ItalicsOff
  | 6 => .BoldOn
  | 7 => .BoldOff
  | 8 => .FontPreset (nthByte ops 0)
  | 9 => .Ly
  | 10 => .Image (leVal (ops.take 4)) (win1252 (ops.drop 5))
  | 11 => .ImageLink (win1252 (ops.drop 1))
  | 12 => .EndLink
  | 13 => .Font (nthByte ops 0)
  | 14 => .FileName (win1252 (ops.drop 1))
  | 15 => .Concordance (leVal (ops.take 2))
  | 16 => .NodeNumber (leVal (ops.take 2))
  | 17 => .SuperScriptOn
  | 18 => .SuperScriptOff
  | 19 => .Sigil (win1252 (ops.drop 1))
  | 20 => .Header
  | 21 => .HypenAtEol
  | 22 => .UnderlineOn
  | 23 => .UnderlineOff
  | 24 => .GreekOn
  | 25 => .GreekOff
  | 27 => .OneBlank
  | 28 => .VerticalLineOn
  | 29 => .VerticalLineOff
  | 30 => .TD
  | 31 => .Null
  | 128 => .PageLink (leVal (ops.take 4)) (win1252 (ops.drop 5))
  | 129 => .IDStart (nthByte ops 0)
  | 130 => .IDEnd (nthByte ops 0)
  | 131 => .SubscriptOn
  | 132 => .SubscriptOff
  | 133 => .Color (nthByte ops 0)
  | 134 => .InlineImage (leVal (ops.take 2)) (leVal ((ops.drop 2).take 2)) (win1252 (ops.drop 5))
  | 135 => .SearchWord (win1252 (ops.drop 1))
  | 136 => .FontSize (nthByte ops 0)
  | 137 => .Copyright (nthByte ops 0)
  | 138 => .AutoLink (leVal (ops.take 4))
  | 139 => .SoftCarriageReturn
  | 140 => .InvisibleHyphen
  | 141 => .LetterSpacingOn
  | 142 => .LetterSpacingOff
  | 143 => .HalfLineSpacing
  | 144 => .ListItemStart
  | 145 => .ListItemEnd
  | 146 => .UnorderedListStart
  | 147 => .UnorderedListEnd
  | 148 => .SetX (leVal (ops.take 2))
  | 149 => .SV (leVal (ops.take 8))
  | 150 => .SVLemmaBegin (win1252 (ops.drop 1))
  | 151 => .SVLemmaStop
  | 152 => .CenteredOn
  | 153 => .CenteredOff
  | 154 => .AlignRightOn
  | 155 => .AlignRightOff
  | 156 => .EOn
  | 157 => .EOff
  | 158 => .BibIndex (leVal (ops.take 4))
  | 159 => .NotFirstLine
  | 160 => .Thumb
  | 161 => .EndNew ops
  | 162 => .UrlBegin (win1252 (ops.drop 1))
  | 163 => .UrlEnd
  | 164 => .WordAnchor
  | 165 => .ThumbWWW
  | 166 => .S
  | 167 => .NoJustifyOn
  | 168 => .NoJustifyOff
  | 169 => .NextBlankFixed
  | 170 => .WordRest (decide (128 ≤ nthByte ops 0)) (win1252 (ops.drop 1))
  | 171 => .WordIncomplete (win1252 (ops.drop 1))
  | 172 => .HyphenCK
  | 173 => .HebrewOn
  | 174 => .HebrewOff
  | 175 => .NodeNumber2 (leVal (ops.take 4))
  | 176 => .StrikeThroughOn
  | 177 => .StrikeThroughOff
  | 178 => .SetY (leVal (ops.take 2))
  | 179 => .Cor (leVal (ops.take 4))
  | 180 => .EndCor
  | 236 => .DashedLine
  | 255 => .Unknown [] ""
  | _ => .Unknown [] ""

/-- Result of one `Token::read` attempt (binrw): success with the remaining
bytes, an end-of-file error (`e.is_eof()` true: either no opcode byte is left,
or the magic-matched variant ran out of operand bytes), or a non-EOF failure
(no variant's magic matches the opcode byte). -/
inductive ReadTok where
  | ok (t : Token) (rest : List Nat)
  | eof
  | bad

/-- One `Token::read` from the front of `input` (binrw derive on the
`src/token.rs` enum: try each magic-tagged variant, consume operands). -/
def readToken (input : List Nat) : ReadTok :=
  match input with
  | [] => .eof
  | b :: r =>
    if opcodeKnown b then
      if operandLen b r ≤ r.length then
        .ok (mkToken b (r.take (operandLen b r))) (r.drop (operandLen b r))
      else .eof
    else .bad

/-! ## The page lexer (`Page::lex` in `src/text.rs`) -/

/-- Lexer loop with fuel (fuel bounds the number of iterations; each
iteration consumes at least one byte, so `length + 1` fuel is exact).
On a successful read the pending unknown buffer, if non-empty, is flushed as
one `Unknown` token first; a non-EOF failure moves the opcode byte into the
buffer; an EOF read returns the tokens collected so far (discarding any
pending buffer, as the source does). -/
def lexAuxF : Nat → List Nat → List Nat → List Token
  | 0, _, _ => []
  | fuel + 1, input, ubuf =>
    match readToken input with
    | .ok t rest =>
      (if ubuf = [] then [t] else [Token.Unknown ubuf (utf8Lossy ubuf), t]) ++
        lexAuxF fuel rest []
    | .eof => []
    | .bad =>
      match input with
      | [] => []
      | b :: r => lexAuxF fuel r (ubuf ++ [b])

/-- Lex a page payload. -/
def lexData (data : List Nat) : List Token := lexAuxF (data.length + 1) data []

/-- A page record (`src/text.rs`). -/
structure Page where
  number : Nat
  atom_count : Nat
  word_count : Nat
  data : List Nat

def Page.lex (self : Page) : List Token := lexData self.data

/-! ## Rust `char`/`str` helpers used by the typesetter -/

/-- `char::is_whitespace` (the Unicode White_Space property). -/
def isRustWhitespace (c : Char) : Bool :=
  let n := c.toNat
  (9 ≤ n && n ≤ 13) || n = 32 || n = 0x85 || n = 0xA0 || n = 0x1680 ||
  (0x2000 ≤ n && n ≤ 0x200A) || n = 0x2028 || n = 0x2029 || n = 0x202F ||
  n = 0x205F || n = 0x3000

/-- `char::is_alphanumeric` (Unicode Alphabetic or Nd/Nl/No), modelled exactly
on ASCII and Latin-1; above U+00FF the classes are approximated by `true`
(nothing proved in this development evaluates the predicate there). -/
def charIsAlphanumeric (c : Char) : Bool :=
  let n := c.toNat
  if n < 0x80 then
    (48 ≤ n && n ≤ 57) || (65 ≤ n && n ≤ 90) || (97 ≤ n && n ≤ 122)
  else if n ≤ 0xFF then
    n = 0xAA || n = 0xB5 || n = 0xB9 || n = 0xBA || (0xB2 ≤ n && n ≤ 0xB3) ||
    (0xBC ≤ n && n ≤ 0xBE) || (0xC0 ≤ n && n ≤ 0xFF && n ≠ 0xD7 && n ≠ 0xF7)
  else true

/-- `str::trim_end`. -/
def trimEnd (s : String) : String :=
  String.mk ((s.data.reverse.dropWhile isRustWhitespace).reverse)

/-- `str::trim_end_matches('-')`. -/
def trimEndDashes (s : String) : String :=
  String.mk ((s.data.reverse.dropWhile (fun c => c = '-')).reverse)

/-- `s.chars().next_back().map_or(false, |c| !c.is_alphanumeric())`. -/
def lastNonAlnum (s : String) : Bool :=
  match s.data.getLast? with
  | some c => !charIsAlphanumeric c
  | none => false

/-- Modelled from the spec: the character decoder (`src/decoding.rs`,
`decoding::decode_string`) is not present in the source tree.  Spec section 4.3:
font index 0 is the default legacy code page (Windows-1252); non-zero font
indices select alternate glyph tables whose unmapped bytes fall back to the
code point of the byte value (the concrete alternate tables are not given, so
the fallback is used for them). -/
def decode_string (data : List Nat) (font_idx : Nat) : String :=
  if font_idx = 0 then win1252 data
  else String.mk (data.map (fun b => Char.ofNat (b % 256)))

/-! ## The typesetter state machine (`encode_page` in `src/encoder.rs`) -/

/-- `encoder::Style` (all fields default to false/`None`; `NonZeroU8`/
`NonZeroU16` values are modelled as `Option Nat` holding a non-zero value). -/
structure Style where
  left_padding : Option Nat := none
  emphasis : Bool := false
  strong : Bool := false
  superscript : Bool := false
  subscript : Bool := false
  strikethrough : Bool := false
  underline : Bool := false
  wide_spacing : Bool := false
  size : Option Nat := none
  color_gray : Bool := false
  no_justification : Bool := false
  alignment : Option String := none
  deriving DecidableEq

def Style.default : Style := {}

/-- The `Encoder` trait: a sink of type `σ` with the four operations. -/
structure EncoderOps (σ : Type) where
  chunk : σ → String → Style → σ
  link : σ → String → String → σ
  pageref : σ → Nat → σ
  searchword : σ → String → σ

/-- `encoder::State` (minus the `&mut E` borrow, which is the `sink` field). -/
structure EncState (σ : Type) where
  sink : σ
  queued_link : Option (String × String) := none
  font_idx : Nat := 0
  word_incomplete : Bool := false
  had_carriage_return : Bool := false
  add_hyphen_at_eol : Bool := false
  add_hyphen_at_eol_separating_ck : Bool := false
  add_invisible_hyphen : Bool := false
  file_name : Option String := none
  concordance : Option Nat := none
  node_number : Option Nat := none
  sigil : Option String := none
  current_style : Style := {}

/-- `State::new`. -/
def EncState.new (sink : σ) : EncState σ := { sink := sink }

/-- `State::hyphen`. -/
def hyphen (st : EncState σ) : Bool :=
  st.add_hyphen_at_eol || st.add_hyphen_at_eol_separating_ck || st.add_invisible_hyphen

/-- `State::reset_hyphens`. -/
def reset_hyphens (st : EncState σ) : EncState σ :=
  { st with add_hyphen_at_eol := false, add_hyphen_at_eol_separating_ck := false,
            add_invisible_hyphen := false }

/-- `impl Write for State`: a queued link captures the text, otherwise it goes
to the sink as a chunk under the current style. -/
def writeStr (ops : EncoderOps σ) (st : EncState σ) (s : String) : EncState σ :=
  match st.queued_link with
  | some (acc, url) => { st with queued_link := some (acc ++ s, url) }
  | none => { st with sink := ops.chunk st.sink s st.current_style }

/-- The `Token::Blanks(n)` loop: `n` writes of one space. -/
def writeSpaces (ops : EncoderOps σ) : Nat → EncState σ → EncState σ
  | 0, st => st
  | n + 1, st => writeSpaces ops n (writeStr ops st " ")

/-- The text that the `Token::Word` arm prepares for emission:
decode, right-trim, and strip trailing dashes iff no hyphen flag is active. -/
def wordEmitText (hyph : Bool) (font_idx : Nat) (data : List Nat) : String :=
  let s := decode_string data font_idx
  if !hyph then trimEndDashes (trimEnd s) else trimEnd s

/-- Result of processing one token: continue, break out of the loop
(`EndOfPage`), or a Rust panic. -/
inductive StepRes (σ : Type) where
  | next (st : EncState σ)
  | stop (st : EncState σ)
  | panicked (msg : String)

/-- One iteration of the `encode_page` token loop. -/
def encodeStep (ops : EncoderOps σ) (st : EncState σ) (t : Token) : StepRes σ :=
  match t with
  | .Blanks n => .next (writeSpaces ops n st)
  | .Word space_at_end data =>
    let s := wordEmitText (hyphen st) st.font_idx data
    let st1 := if st.word_incomplete then { st with word_incomplete := false }
               else if s ≠ "" then writeStr ops st s else st
    let st2 := reset_hyphens st1
    .next (if space_at_end || lastNonAlnum s then writeStr ops st2 " " else st2)
  | .HardCarriageReturn =>
    .next (writeStr ops { st with had_carriage_return := true } "\n\n")
  | .EndOfPage => .stop st
  | .ItalicsOn => .next { st with current_style.emphasis := true }
  | .ItalicsOff => .next { st with current_style.emphasis := false }
  | .BoldOn => .next { st with current_style.strong := true }
  | .BoldOff => .next { st with current_style.strong := false }
  | .FontPreset n =>
    match n with
    | 0 => .next { st with current_style.color_gray := false,
                           current_style.emphasis := false,
                           current_style.strong := false }
    | 1 => .next { st with current_style.size := some 133 }
    | 2 => .next { st with current_style.size := some 122 }
    | 3 => .next { st with current_style.size := some 111 }
    | 4 => .next { st with current_style.size := none, current_style.strong := true }
    | 5 => .next { st with current_style.size := none }
    | 6 => .next { st with current_style.size := none, current_style.emphasis := true }
    | _ => .next st
  | .Ly => .next st
  | .Image _ _ => .next st
  | .ImageLink _ => .next st
  | .EndLink => .next st
  | .Font n => .next { st with font_idx := n }
  | .FileName s => .next { st with file_name := some s }
  | .Concordance n => .next { st with concordance := some n }
  | .NodeNumber n => .next { st with node_number := some n }
  | .SuperScriptOn => .next { st with current_style.superscript := true }
  | .SuperScriptOff => .next { st with current_style.superscript := false }
  | .Sigil s => .next { st with sigil := some s }
  | .Header => .next st
  | .HypenAtEol => .next { st with add_invisible_hyphen := true }
  | .UnderlineOn => .next { st with current_style.underline := true }
  | .UnderlineOff => .next { st with current_style.underline := false }
  | .GreekOn => .next st
  | .GreekOff => .next st
  | .OneBlank => .next (writeStr ops st " ")
  | .VerticalLineOn => .next st
  | .VerticalLineOff => .next st
  | .TD => .next st
  | .Null => .next st
  | .PageLink page_number _ =>
    if page_number ≠ 0 then .next { st with sink := ops.pageref st.sink page_number }
    else .next st
  | .IDStart _ => .next st
  | .IDEnd _ => .next st
  | .SubscriptOn => .next { st with current_style.subscript := true }
  | .SubscriptOff => .next { st with current_style.subscript := false }
  | .Color colour =>
    if colour = 1 then .next { st with current_style.color_gray := true }
    else .next { st with current_style.color_gray := false }
  | .InlineImage _ _ _ => .next st
  | .SearchWord _ => .next st
  | .FontSize size =>
    if size = 0 then .panicked "called Option::unwrap() on a None value"
    else .next { st with current_style.size := some size }
  | .Copyright _ => .next st
  | .AutoLink page => .next { st with sink := ops.pageref st.sink page }
  | .SoftCarriageReturn =>
    if !hyphen st then .next (writeStr ops st " ") else .next st
  | .InvisibleHyphen => .next { st with add_invisible_hyphen := true }
  | .LetterSpacingOn => .next { st with current_style.wide_spacing := true }
  | .LetterSpacingOff => .next { st with current_style.wide_spacing := false }
  | .HalfLineSpacing => .next (writeStr ops st "\n")
  | .ListItemStart => .panicked "actuall saw a list item"
  | .ListItemEnd => .next st
  | .UnorderedListStart => .next st
  | .UnorderedListEnd => .next st
  | .SetX indent =>
    .next { st with current_style.left_padding := if indent = 0 then none else some indent }
  | .SV _ => .next st
  | .SVLemmaBegin _ => .next st
  | .SVLemmaStop => .next st
  | .CenteredOn => .next { st with current_style.alignment := some "center" }
  | .CenteredOff => .next { st with current_style.alignment := none }
  | .AlignRightOn => .next { st with current_style.alignment := some "right" }
  | .AlignRightOff => .next { st with current_style.alignment := none }
  | .EOn => .next st
  | .EOff => .next st
  | .BibIndex _ => .next st
  | .NotFirstLine => .next st
  | .Thumb => .next st
  | .EndNew _ => .next st
  | .UrlBegin url => .next { st with queued_link := some ("", url) }
  | .UrlEnd =>
    match st.queued_link with
    | some (content, url) =>
      .next { st with queued_link := none, sink := ops.link st.sink url content }
    | none => .next st
  | .WordAnchor => .next st
  | .ThumbWWW => .next st
  | .S => .next st
  | .NoJustifyOn => .next { st with current_style.no_justification := true }
  | .NoJustifyOff => .next { st with current_style.no_justification := false }
  | .NextBlankFixed => .next st
  | .WordRest space_at_end data =>
    let st1 := writeStr ops st data
    .next (if space_at_end then writeStr ops st1 " " else st1)
  | .WordIncomplete word =>
    .next { (writeStr ops st word) with word_incomplete := true }
  | .HyphenCK => .next { st with add_hyphen_at_eol_separating_ck := true }
  | .HebrewOn => .next st
  | .HebrewOff => .next st
  | .NodeNumber2 _ => .next st
  | .StrikeThroughOn => .next { st with current_style.strikethrough := true }
  | .StrikeThroughOff => .next { st with current_style.strikethrough := false }
  | .SetY _ => .next st
  | .Cor _ => .next st
  | .EndCor => .next st
  | .DashedLine => .next st
  | .Unknown _ _ => .next st

/-- Result of a fallible Rust call: `Ok`, an `Err` return, or a panic. -/
inductive Outcome (α : Type) where
  | ok (a : α)
  | errReturn (e : String)
  | aborted (msg : String)

def Outcome.isAborted : Outcome α → Bool
  | .aborted _ => true
  | _ => false

/-- The `encode_page` token loop over a token list. -/
def encodeTokens (ops : EncoderOps σ) (st : EncState σ) : List Token → Outcome (EncState σ)
  | [] => .ok st
  | t :: ts =>
    match encodeStep ops st t with
    | .next st' => encodeTokens ops st' ts
    | .stop st' => .ok st'
    | .panicked m => .aborted m

/-- `encode_page` (the `tocitem` and `page_number` arguments do not influence
any behaviour and are omitted). -/
def encodePage (ops : EncoderOps σ) (sink : σ) (lexed : List Token) : Outcome (EncState σ) :=
  encodeTokens ops (EncState.new sink) lexed

/-- The prefix of the loop that processes every listed token with a `next`
result (no `EndOfPage` break, no panic); observer used to state reachability
of a later token. -/
def runNoStop (ops : EncoderOps σ) (st : EncState σ) : List Token → Option (EncState σ)
  | [] => some st
  | t :: ts =>
    match encodeStep ops st t with
    | .next st' => runNoStop ops st' ts
    | _ => none

/-! ## The structured sink (`src/for_flutter_encoder.rs`) -/

/-- `ChunkStyle`. -/
structure ChunkStyle where
  emphasis : Bool := false
  strong : Bool := false
  superscript : Bool := false
  subscript : Bool := false
  strikethrough : Bool := false
  underline : Bool := false
  wide_spacing : Bool := false
  size : Option Nat := none
  colour_gray : Bool := false
  deriving DecidableEq

/-- `SegmentStyle`. -/
structure SegmentStyle where
  left_padding : Option Nat := none
  no_justification : Bool := false
  alignment : Option String := none
  deriving DecidableEq

/-- `split_style`. -/
def split_style (s : Style) : ChunkStyle × SegmentStyle :=
  (⟨s.emphasis, s.strong, s.superscript, s.subscript, s.strikethrough,
    s.underline, s.wide_spacing, s.size, s.color_gray⟩,
   ⟨s.left_padding, s.no_justification, s.alignment⟩)

/-- `Piece`. -/
inductive Piece where
  | Chunk (style : ChunkStyle) (text : String)
  | Link (url : String) (content : String)
  | PageRef (n : Nat)
  | SearchWord (w : String)
  deriving DecidableEq

/-- The chunk style of a piece, when it is a chunk. -/
def pieceStyleOf : Piece → Option ChunkStyle
  | .Chunk s _ => some s
  | _ => none

/-- `Segment`. -/
structure Segment where
  style : SegmentStyle := {}
  pieces : List Piece := []
  deriving DecidableEq

/-- `Segment::push_piece`, written as recursion to the end of the piece list:
a chunk equal in style to the last piece (when that is a chunk) is merged by
text concatenation, anything else is appended. -/
def pushPieceList : List Piece → Piece → List Piece
  | [], p => [p]
  | [last], p =>
    match last, p with
    | .Chunk style text, .Chunk new_style new_text =>
      if style = new_style then [.Chunk style (text ++ new_text)]
      else [last, p]
    | _, _ => [last, p]
  | x :: xs, p => x :: pushPieceList xs p

def Segment.push_piece (seg : Segment) (p : Piece) : Segment :=
  { seg with pieces := pushPieceList seg.pieces p }

/-- `Segment::new`. -/
def Segment.new : Segment := {}

/-- `Segment::new_with_piece`. -/
def Segment.new_with_piece (style : SegmentStyle) (piece : Piece) : Segment :=
  { style := style, pieces := [piece] }

/-- `ForFlutter`. -/
structure ForFlutter where
  plain : String
  segments : List Segment
  deriving DecidableEq

/-- `ForFlutter::new`. -/
def ForFlutter.new : ForFlutter := { plain := "", segments := [Segment.new] }

/-- Apply `f` to the last element (`last_mut`); the sink's segment list is
never empty, so the `[]` case is unreachable from `ForFlutter::new`. -/
def updateLast (f : Segment → Segment) : List Segment → List Segment
  | [] => []
  | [s] => [f s]
  | s :: ss => s :: updateLast f ss

/-- `ForFlutter::push_piece_samestyle`. -/
def ForFlutter.push_piece_samestyle (fl : ForFlutter) (p : Piece) : ForFlutter :=
  { fl with segments := updateLast (fun sg => sg.push_piece p) fl.segments }

/-- `ForFlutter::push_piece`. -/
def ForFlutter.fl_push_piece (fl : ForFlutter) (style : SegmentStyle) (p : Piece) : ForFlutter :=
  match fl.segments.getLast? with
  | some last =>
    if last.style = style then
      { fl with segments := updateLast (fun sg => sg.push_piece p) fl.segments }
    else { fl with segments := fl.segments ++ [Segment.new_with_piece style p] }
  | none => fl

/-- `impl Encoder for ForFlutter`: `chunk`. -/
def ForFlutter.chunk (fl : ForFlutter) (s : String) (style : Style) : ForFlutter :=
  let fl := { fl with plain := fl.plain ++ s }
  let cs := (split_style style).1
  let ss := (split_style style).2
  fl.fl_push_piece ss (.Chunk cs s)

/-- `impl Encoder for ForFlutter`: `link`. -/
def ForFlutter.link (fl : ForFlutter) (url : String) (content : String) : ForFlutter :=
  fl.push_piece_samestyle (.Link url content)

/-- `impl Encoder for ForFlutter`: `pageref`. -/
def ForFlutter.pageref (fl : ForFlutter) (page : Nat) : ForFlutter :=
  fl.push_piece_samestyle (.PageRef page)

/-- `impl Encoder for ForFlutter`: `searchword`. -/
def ForFlutter.searchword (fl : ForFlutter) (s : String) : ForFlutter :=
  fl.push_piece_samestyle (.SearchWord s)

def forFlutterOps : EncoderOps ForFlutter :=
  ⟨ForFlutter.chunk, ForFlutter.link, ForFlutter.pageref, ForFlutter.searchword⟩

/-! ### Sink-call traces (specification observers)

A `SinkCall` records one call of the `Encoder` trait; the trace sink collects
the calls in order, and `runCalls` replays a call list against the structured
sink.  These observers serve only to state the claims about "any sequence of
sink calls" and "the texts ever passed to chunk". -/

inductive SinkCall where
  | chunk (s : String) (style : Style)
  | link (url : String) (content : String)
  | pageref (n : Nat)
  | searchword (s : String)
  deriving DecidableEq

/-- The trace sink: its state is the list of calls received so far. -/
def traceOps : EncoderOps (List SinkCall) :=
  ⟨fun tr s style => tr ++ [.chunk s style],
   fun tr url content => tr ++ [.link url content],
   fun tr n => tr ++ [.pageref n],
   fun tr s => tr ++ [.searchword s]⟩

/-- Replay one recorded call against the structured sink. -/
def applyCall (fl : ForFlutter) : SinkCall → ForFlutter
  | .chunk s style => fl.chunk s style
  | .link url content => fl.link url content
  | .pageref n => fl.pageref n
  | .searchword s => fl.searchword s

/-- Replay a recorded call list against the structured sink. -/
def runCalls (fl : ForFlutter) : List SinkCall → ForFlutter
  | [] => fl
  | c :: cs => runCalls (applyCall fl c) cs

/-- The text contributed to `plain` by one call (chunks only). -/
def chunkTextOf : SinkCall → String
  | .chunk s _ => s
  | _ => ""

/-- In-order concatenation of every text passed to `chunk`. -/
def concatChunkTexts : List SinkCall → String
  | [] => ""
  | c :: cs => chunkTextOf c ++ concatChunkTexts cs

/-- The texts passed to `chunk`, in order. -/
def chunkTextsOfCalls (calls : List SinkCall) : List String :=
  calls.filterMap fun c =>
    match c with
    | .chunk s _ => some s
    | _ => none

/-! ## The page locator (`Pages::load_page` in `src/text.rs`) -/

/-- Bytes `file[pos .. pos+n)`, or `none` on a short read. -/
def readBytesAt (file : List Nat) (pos n : Nat) : Option (List Nat) :=
  if pos + n ≤ file.length then some ((file.drop pos).take n) else none

/-- A little-endian `u16` read. -/
def readU16At (file : List Nat) (pos : Nat) : Option Nat :=
  (readBytesAt file pos 2).map leVal

/-- `address as u64` for the `i32` table entry (two's-complement cast). -/
def asU64 (a : Int) : Nat := (a % (2 ^ 64 : Int)).toNat

/-- `Pages::load_page`: index the page offset table with `page_number - 1`
(`usize` arithmetic: for `page_number = 0` the subtraction wraps, and any
out-of-range index is a Rust panic, i.e. `aborted`), seek to the entry, read
the `u16` page size, the `u16` atom/word counts when `has_magic`, and the
payload (`page_size` bytes with magic, `page_size - 2` without, the `u16`
subtraction wrapping); any short read is an `Err` return. -/
def load_page (file : List Nat) (page_table : List Int) (page_number : Nat)
    (has_magic : Bool) : Outcome Page :=
  let idx := (page_number + (2 ^ 64 - 1)) % 2 ^ 64
  match page_table.get? idx with
  | none => .aborted "index out of range"
  | some address =>
    let pos := asU64 address
    match readU16At file pos with
    | none => .errReturn "failed to fill whole buffer"
    | some page_size =>
      if has_magic then
        match readU16At file (pos + 2) with
        | none => .errReturn "failed to fill whole buffer"
        | some atom_count =>
          match readU16At file (pos + 4) with
          | none => .errReturn "failed to fill whole buffer"
          | some word_count =>
            match readBytesAt file (pos + 6) page_size with
            | none => .errReturn "failed to fill whole buffer"
            | some data => .ok ⟨page_number, atom_count, word_count, data⟩
      else
        match readBytesAt file (pos + 2) ((page_size + 65536 - 2) % 65536) with
        | none => .errReturn "failed to fill whole buffer"
        | some data => .ok ⟨page_number, 0, 0, data⟩

/-! ## End-to-end observers (payload → lexer → typesetter → sink) -/

/-- Plain text of the document built from a page payload by
`lex` + `encode_page` + the structured sink (`none` when the page panics). -/
def pipelinePlain (payload : List Nat) : Option String :=
  match encodePage forFlutterOps ForFlutter.new (lexData payload) with
  | .ok st => some st.sink.plain
  | _ => none

/-- The sink-call trace of a page payload (`none` when the page panics). -/
def pipelineTrace (payload : List Nat) : Option (List SinkCall) :=
  match encodePage traceOps [] (lexData payload) with
  | .ok st => some st.sink
  | _ => none

/-! ## Lexer lemmas -/

theorem readToken_bad_of_unknown {b : Nat} (h : opcodeKnown b = false) (r : List Nat) :
    readToken (b :: r) = .bad := by
  simp [readToken, h]

theorem lexAuxF_skip_unknown :
    ∀ (u : List Nat), (∀ b ∈ u, opcodeKnown b = false) →
    ∀ (fuel : Nat) (input ubuf : List Nat),
      lexAuxF (u.length + fuel) (u ++ input) ubuf = lexAuxF fuel input (ubuf ++ u) := by
  intro u
  induction u with
  | nil => intro _ fuel input ubuf; simp
  | cons b u ih =>
    intro hall fuel input ubuf
    have hb : opcodeKnown b = false := hall b (by simp)
    have hrest : ∀ x ∈ u, opcodeKnown x = false := fun x hx => hall x (by simp [hx])
    have hlen : (b :: u).length + fuel = (u.length + fuel) + 1 := by
      simp [List.length_cons]; omega
    rw [hlen]
    show lexAuxF ((u.length + fuel) + 1) (b :: (u ++ input)) ubuf = _
    rw [lexAuxF]
    rw [readToken_bad_of_unknown hb]
    simp only []
    rw [ih hrest fuel input (ubuf ++ [b])]
    simp

/-- C1 (amended): for every page payload, the pending-unknown buffer is
flushed as a single `Unknown` token holding exactly the unrecognised bytes
immediately before the next successfully-parsed token; but at end-of-input a
non-empty pending buffer is discarded rather than flushed, so re-lexing the
byte payload of an `Unknown.raw` (unrecognised opcode bytes) produces the
empty token list, not an equal `Unknown` token. -/
theorem C1_unknown_buffer_flush :
    (∀ u : List Nat, (∀ b ∈ u, opcodeKnown b = false) → lexData u = [])
    ∧ (∀ (u v : List Nat) (t : Token) (rest : List Nat),
        (∀ b ∈ u, opcodeKnown b = false) → u ≠ [] → readToken v = .ok t rest →
        lexData (u ++ v) = Token.Unknown u (utf8Lossy u) :: lexData v) := by
  constructor
  · intro u hall
    show lexAuxF (u.length + 1) u [] = []
    have h0 : lexAuxF (u.length + 1) (u ++ []) [] = lexAuxF 1 [] ([] ++ u) :=
      lexAuxF_skip_unknown u hall 1 [] []
    simp only [List.append_nil, List.nil_append] at h0
    rw [h0]
    rfl
  · intro u v t rest hall hne hv
    show lexAuxF ((u ++ v).length + 1) (u ++ v) [] = _
    have hlen : (u ++ v).length + 1 = u.length + (v.length + 1) := by
      simp [List.length_append]; omega
    rw [hlen, lexAuxF_skip_unknown u hall (v.length + 1) v []]
    simp only [List.nil_append]
    show _ = Token.Unknown u (utf8Lossy u) :: lexAuxF (v.length + 1) v []
    simp only [lexAuxF, hv, hne, if_neg, if_false]
    simp

/-- C1 counterexample: the payload `[0x1A, 0x03]` (an unrecognised opcode
byte, then `EndOfPage`) lexes to an `Unknown` carrying raw byte `0x1A`; but
re-lexing that raw payload `[0x1A]` produces no tokens at all — the pending
buffer is not flushed at end-of-input. -/
theorem C1_counterexample :
    lexData [26, 3] = [Token.Unknown [26] "\x1a", Token.EndOfPage]
    ∧ lexData [26] = [] := ⟨rfl, rfl⟩

/-- Witness for `C1_unknown_buffer_flush` at `u = [0x1A]`, `v = [0x03]`. -/
theorem C1_unknown_buffer_flush_witness :
    ((∀ b ∈ [26], opcodeKnown b = false) ∧ ([26] : List Nat) ≠ [] ∧
      readToken [3] = .ok Token.EndOfPage [])
    ∧ lexData ([26] ++ [3]) = Token.Unknown [26] (utf8Lossy [26]) :: lexData [3] :=
  ⟨⟨by decide, by decide, rfl⟩,
    C1_unknown_buffer_flush.2 [26] [3] Token.EndOfPage [] (by decide) (by decide) rfl⟩

/-! ## Word / WordRest / PageLink read lemmas -/

theorem mkToken_word_eq (ops : List Nat) :
    mkToken 1 ops = .Word (decide (128 ≤ nthByte ops 0)) (ops.drop 1) := rfl

theorem mkToken_wordrest_eq (ops : List Nat) :
    mkToken 170 ops = .WordRest (decide (128 ≤ nthByte ops 0)) (win1252 (ops.drop 1)) := rfl

theorem mkToken_pagelink_eq (ops : List Nat) :
    mkToken 128 ops = .PageLink (leVal (ops.take 4)) (win1252 (ops.drop 5)) := rfl

theorem readToken_word (L : Nat) (r : List Nat) (hlen : L % 128 ≤ r.length) :
    readToken (1 :: L :: r)
      = .ok (.Word (decide (128 ≤ L)) (r.take (L % 128))) (r.drop (L % 128)) := by
  have hop : opcodeKnown 1 = true := by decide
  have holen : operandLen 1 (L :: r) = L % 128 + 1 := by
    simp [operandLen, nthByte]; omega
  simp only [readToken, hop, if_true, holen]
  rw [if_pos (by simp; omega)]
  rw [List.take_succ_cons, List.drop_succ_cons, mkToken_word_eq]
  simp [nthByte]

theorem readToken_wordrest (L : Nat) (r : List Nat) (hlen : L ≤ r.length) :
    readToken (170 :: L :: r)
      = .ok (.WordRest (decide (128 ≤ L)) (win1252 (r.take L))) (r.drop L) := by
  have hop : opcodeKnown 170 = true := by decide
  have holen : operandLen 170 (L :: r) = L + 1 := by
    simp [operandLen, nthByte]; omega
  simp only [readToken, hop, if_true, holen]
  rw [if_pos (by simp; omega)]
  rw [List.take_succ_cons, List.drop_succ_cons, mkToken_wordrest_eq]
  simp [nthByte]

theorem readToken_wordrest_eof (L : Nat) (r : List Nat) (hlen : r.length < L) :
    readToken (170 :: L :: r) = .eof := by
  have hop : opcodeKnown 170 = true := by decide
  have holen : operandLen 170 (L :: r) = L + 1 := by
    simp [operandLen, nthByte]; omega
  simp only [readToken, hop, if_true, holen]
  rw [if_neg (by simp; omega)]

set_option maxHeartbeats 2000000 in
theorem mkToken_pagelink_imp (b : Nat) (ops : List Nat) (p : Nat) (n : String)
    (h : mkToken b ops = .PageLink p n) : b = 128 := by
  unfold mkToken at h
  split at h <;> simp_all

/-- C3 (amended): a `Word` token's length byte follows the convention — high
bit (`0x80`) is `space_at_end`, low seven bits give the byte count; a
`WordRest` token's length byte sets `space_at_end` from the high bit but the
*full* length byte (high bit included) is used as the byte count, so a
`WordRest` length byte `≥ 0x80` tries to read `len` bytes and hits
end-of-input unless that many bytes follow. -/
theorem C3_length_byte_convention :
    (∀ (L : Nat) (r : List Nat), L % 128 ≤ r.length →
      readToken (1 :: L :: r)
        = .ok (.Word (decide (128 ≤ L)) (r.take (L % 128))) (r.drop (L % 128)))
    ∧ (∀ (L : Nat) (r : List Nat), L ≤ r.length →
      readToken (170 :: L :: r)
        = .ok (.WordRest (decide (128 ≤ L)) (win1252 (r.take L))) (r.drop L))
    ∧ (∀ (L : Nat) (r : List Nat), r.length < L →
      readToken (170 :: L :: r) = .eof) :=
  ⟨readToken_word, readToken_wordrest, readToken_wordrest_eof⟩

/-- C3 counterexample: a `WordRest` whose length byte is `0x81` followed by
one text byte does *not* lex to a one-byte `WordRest` with `space_at_end`
(the code demands `0x81 = 129` payload bytes and fails with end-of-input). -/
theorem C3_counterexample :
    readToken [170, 129, 97] = .eof
    ∧ readToken [170, 129, 97] ≠ .ok (.WordRest true "a") [] :=
  ⟨rfl, fun h => ReadTok.noConfusion ((rfl : readToken [170, 129, 97] = ReadTok.eof) ▸ h)⟩

/-- Witness for `C3_length_byte_convention`: Word with length byte 0x83
(three bytes, space at end) and WordRest with length bytes 2 and 0x81. -/
theorem C3_length_byte_convention_witness :
    (131 % 128 ≤ ([97, 98, 99] : List Nat).length
      ∧ readToken [1, 131, 97, 98, 99] = .ok (.Word true [97, 98, 99]) [])
    ∧ ((2 : Nat) ≤ ([97, 98] : List Nat).length
      ∧ readToken [170, 2, 97, 98] = .ok (.WordRest false "ab") [])
    ∧ (([97] : List Nat).length < 129 ∧ readToken [170, 129, 97] = .eof) :=
  ⟨⟨by decide, C3_length_byte_convention.1 131 [97, 98, 99] (by decide)⟩,
   ⟨by decide, C3_length_byte_convention.2.1 2 [97, 98] (by decide)⟩,
   ⟨by decide, C3_length_byte_convention.2.2 129 [97] (by decide)⟩⟩

theorem readToken_ok_lt (input : List Nat) (t : Token) (rest : List Nat)
    (h : readToken input = .ok t rest) : rest.length < input.length := by
  cases input with
  | nil => exact ReadTok.noConfusion h
  | cons b r =>
    simp only [readToken] at h
    by_cases hk : opcodeKnown b
    · rw [if_pos hk] at h
      by_cases hl : operandLen b r ≤ r.length
      · rw [if_pos hl] at h
        cases h
        simp only [List.length_drop, List.length_cons]
        omega
      · rw [if_neg hl] at h; exact ReadTok.noConfusion h
    · rw [if_neg hk] at h; exact ReadTok.noConfusion h

theorem lexAuxF_congr :
    ∀ (f1 f2 : Nat) (input ubuf : List Nat), input.length < f1 → input.length < f2 →
      lexAuxF f1 input ubuf = lexAuxF f2 input ubuf := by
  intro f1
  induction f1 with
  | zero => intro f2 input ubuf h1 _; omega
  | succ f1 ih =>
    intro f2 input ubuf h1 h2
    cases f2 with
    | zero => omega
    | succ f2 =>
      cases hr : readToken input with
      | ok t rest =>
        have hlt := readToken_ok_lt input t rest hr
        simp only [lexAuxF, hr]
        rw [ih f2 rest [] (by omega) (by omega)]
      | eof => simp only [lexAuxF, hr]
      | bad =>
        cases input with
        | nil => simp only [lexAuxF, hr]
        | cons b r =>
          simp only [lexAuxF, hr]
          exact ih f2 r (ubuf ++ [b]) (by simp at h1 ⊢; omega) (by simp at h2 ⊢; omega)

theorem lexData_cons_of_ok (v : List Nat) (t : Token) (rest : List Nat)
    (h : readToken v = .ok t rest) : lexData v = t :: lexData rest := by
  show lexAuxF (v.length + 1) v [] = _
  simp only [lexAuxF, h, if_pos rfl]
  show t :: lexAuxF v.length rest [] = _
  rw [lexAuxF_congr v.length (rest.length + 1) rest []
    (readToken_ok_lt v t rest h) (by omega)]
  rfl

/-- C4: opcode byte 0x80 lexes as `PageLink` with a little-endian `u32` page
number followed by a length-prefixed `Name`, and no other opcode byte
produces a `PageLink` token. -/
theorem C4_pagelink_opcode :
    (∀ (b0 b1 b2 b3 L : Nat) (r : List Nat), L ≤ r.length →
      readToken (128 :: b0 :: b1 :: b2 :: b3 :: L :: r)
        = .ok (.PageLink (b0 + 256 * b1 + 65536 * b2 + 16777216 * b3)
                 (win1252 (r.take L))) (r.drop L)
      ∧ lexData (128 :: b0 :: b1 :: b2 :: b3 :: L :: r)
        = .PageLink (b0 + 256 * b1 + 65536 * b2 + 16777216 * b3) (win1252 (r.take L))
            :: lexData (r.drop L))
    ∧ (∀ (b : Nat) (r : List Nat) (t : Token) (rest : List Nat) (p : Nat) (nm : String),
        readToken (b :: r) = .ok t rest → t = .PageLink p nm → b = 128) := by
  constructor
  · intro b0 b1 b2 b3 L r hL
    have hread : readToken (128 :: b0 :: b1 :: b2 :: b3 :: L :: r)
        = .ok (.PageLink (b0 + 256 * b1 + 65536 * b2 + 16777216 * b3)
                 (win1252 (r.take L))) (r.drop L) := ?_
    · exact ⟨hread, lexData_cons_of_ok _ _ _ hread⟩
    have hop : opcodeKnown 128 = true := by decide
    have holen : operandLen 128 (b0 :: b1 :: b2 :: b3 :: L :: r)
        = ((((L + 1) + 1) + 1) + 1) + 1 := by
      simp [operandLen, nthByte]; omega
    simp only [readToken, hop, if_true, holen]
    rw [if_pos (by simp; omega)]
    simp only [List.take_succ_cons, List.drop_succ_cons, mkToken_pagelink_eq]
    norm_num [leVal, List.take]
    ring
  · intro b r t rest p nm h hpt
    simp only [readToken] at h
    by_cases hk : opcodeKnown b
    · rw [if_pos hk] at h
      by_cases hl : operandLen b r ≤ r.length
      · rw [if_pos hl] at h
        have ht : t = mkToken b (r.take (operandLen b r)) := by
          cases h; rfl
        subst ht
        exact mkToken_pagelink_imp b _ p nm hpt
      · rw [if_neg hl] at h; exact ReadTok.noConfusion h
    · rw [if_neg hk] at h; exact ReadTok.noConfusion h

/-- Witness for `C4_pagelink_opcode`: payload
`80 07 01 00 00 02 68 69` (page 263, name "hi"). -/
theorem C4_pagelink_opcode_witness :
    ((2 : Nat) ≤ ([104, 105] : List Nat).length
      ∧ readToken [128, 7, 1, 0, 0, 2, 104, 105] = .ok (.PageLink 263 "hi") []
      ∧ lexData [128, 7, 1, 0, 0, 2, 104, 105] = [.PageLink 263 "hi"])
    ∧ (128 : Nat) = 128 :=
  ⟨⟨by decide, (C4_pagelink_opcode.1 7 1 0 0 2 [104, 105] (by decide)).1,
    ((C4_pagelink_opcode.1 7 1 0 0 2 [104, 105] (by decide)).2 : _)⟩,
   C4_pagelink_opcode.2 128 [7, 1, 0, 0, 2, 104, 105] (.PageLink 263 "hi") [] 263 "hi" rfl rfl⟩

/-- C2 counterexample: on payload `15 01 04 66 6F 6F 2D 01 03 62 61 72 03`
the document plain text is `"foo- bar"`, not `"foo-bar"`: the space rule
(space appended when the last character is non-alphanumeric) fires on the
preserved trailing dash. -/
theorem C2_counterexample :
    pipelinePlain [0x15, 0x01, 0x04, 0x66, 0x6F, 0x6F, 0x2D, 0x01, 0x03, 0x62, 0x61, 0x72, 0x03]
      = some "foo- bar"
    ∧ "foo- bar" ≠ "foo-bar" := ⟨by decide, by decide⟩

/-- C2 (amended): on payload `15 01 04 66 6F 6F 2D 01 03 62 61 72 03` the
first word's trailing `-` is preserved (`HypenAtEol` set the invisible-hyphen
flag), and the emitted texts are `"foo-"`, `" "`, `"bar"` — the space is
appended after `"foo-"` because its last character `-` is non-alphanumeric —
so the document plain text is `"foo- bar"`. -/
theorem C2_hyphen_scenario :
    lexData [0x15, 0x01, 0x04, 0x66, 0x6F, 0x6F, 0x2D, 0x01, 0x03, 0x62, 0x61, 0x72, 0x03]
      = [.HypenAtEol, .Word false [0x66, 0x6F, 0x6F, 0x2D], .Word false [0x62, 0x61, 0x72],
         .EndOfPage]
    ∧ (pipelineTrace [0x15, 0x01, 0x04, 0x66, 0x6F, 0x6F, 0x2D, 0x01, 0x03, 0x62, 0x61, 0x72, 0x03]).map
        chunkTextsOfCalls = some ["foo-", " ", "bar"]
    ∧ pipelinePlain [0x15, 0x01, 0x04, 0x66, 0x6F, 0x6F, 0x2D, 0x01, 0x03, 0x62, 0x61, 0x72, 0x03]
      = some "foo- bar" :=
  ⟨rfl, by decide, by decide⟩

/-- C9: the claim (per the spec, ListItemStart is a no-op that never aborts)
is contradicted by the code: the `Token::ListItemStart` arm of `encode_page`
panics unconditionally. -/
theorem C9_list_item_start_panics :
    encodePage forFlutterOps ForFlutter.new [.ListItemStart]
      = .aborted "actuall saw a list item"
    ∧ ∀ (σ : Type) (ops : EncoderOps σ) (st : EncState σ),
        encodeStep ops st .ListItemStart = .panicked "actuall saw a list item" :=
  ⟨rfl, fun _ _ _ => rfl⟩

/-- C10: the lexer accepts `88 00` as `FontSize(0)`, and processing a
`FontSize(0)` token always panics at the `NonZeroU8` construction, so
`encode_page` only returns when every `FontSize` token it processes carries a
non-zero operand. -/
theorem C10_fontsize_zero_panics :
    lexData [136, 0] = [.FontSize 0]
    ∧ (∀ (σ : Type) (ops : EncoderOps σ) (st st' : EncState σ) (ts1 ts2 : List Token),
        runNoStop ops st ts1 = some st' →
        encodeTokens ops st (ts1 ++ .FontSize 0 :: ts2)
          = .aborted "called Option::unwrap() on a None value")
    ∧ encodePage forFlutterOps ForFlutter.new [.FontSize 0]
        = .aborted "called Option::unwrap() on a None value" := by
  refine ⟨rfl, ?_, rfl⟩
  intro σ ops st st' ts1 ts2 h
  induction ts1 generalizing st with
  | nil =>
    simp only [List.nil_append, encodeTokens, encodeStep]
    rfl
  | cons t ts ih =>
    simp only [runNoStop] at h
    cases he : encodeStep ops st t with
    | next st2 =>
      rw [he] at h
      simp only [List.cons_append, encodeTokens, he]
      exact ih st2 h
    | stop st2 => rw [he] at h; exact Option.noConfusion h
    | panicked m => rw [he] at h; exact Option.noConfusion h

/-- Witness for `C10_fontsize_zero_panics` at the empty prefix. -/
theorem C10_fontsize_zero_panics_witness :
    runNoStop forFlutterOps (EncState.new ForFlutter.new) [] = some (EncState.new ForFlutter.new)
    ∧ encodeTokens forFlutterOps (EncState.new ForFlutter.new) ([] ++ Token.FontSize 0 :: [])
        = .aborted "called Option::unwrap() on a None value" :=
  ⟨rfl, C10_fontsize_zero_panics.2.1 ForFlutter forFlutterOps (EncState.new ForFlutter.new)
    (EncState.new ForFlutter.new) [] [] rfl⟩

/-- C6: after a `WordIncomplete` token, the immediately following `Word`
token's decoded text is skipped — the pair contributes exactly the
`WordIncomplete` text — while the `Word` still contributes a trailing space
chunk when its `space_at_end` bit is set (or the prepared text ends
non-alphanumeric); `word_incomplete` is cleared again.  Concretely, payload
`AB 03 66 6F 6F 01 83 66 6F 6F 62 61 72 03` emits exactly `"foo "`. -/
theorem C6_word_incomplete_suppression :
    (∀ (st : EncState (List SinkCall)) (name : String) (sae : Bool) (data : List Nat),
      st.queued_link = none →
      ∃ st1 st2,
        encodeStep traceOps st (.WordIncomplete name) = .next st1 ∧
        encodeStep traceOps st1 (.Word sae data) = .next st2 ∧
        st1.sink = st.sink ++ [.chunk name st.current_style] ∧
        st2.sink = st1.sink ++
          (if sae || lastNonAlnum (wordEmitText (hyphen st) st.font_idx data)
           then [.chunk " " st.current_style] else []) ∧
        st2.word_incomplete = false)
    ∧ pipelinePlain [0xAB, 0x03, 0x66, 0x6F, 0x6F, 0x01, 0x83, 0x66, 0x6F, 0x6F, 0x62, 0x61, 0x72, 0x03]
        = some "foo " := by
  constructor
  · intro st name sae data h
    refine ⟨_, _, rfl, rfl, ?_, ?_, ?_⟩
    · simp [writeStr, h, traceOps]
    · simp only [encodeStep, writeStr, h, traceOps, reset_hyphens, hyphen]
      split <;> simp [writeStr, h, traceOps, hyphen]
    · simp [encodeStep, writeStr, h, traceOps, reset_hyphens]
      split <;> simp [writeStr, h, traceOps]
  · decide

/-- Witness for `C6_word_incomplete_suppression` at the fresh state,
`WordIncomplete "foo"` then `Word` with `space_at_end` set. -/
theorem C6_word_incomplete_suppression_witness :
    (EncState.new ([] : List SinkCall)).queued_link = none
    ∧ ∃ st1 st2,
        encodeStep traceOps (EncState.new ([] : List SinkCall)) (.WordIncomplete "foo")
          = .next st1 ∧
        encodeStep traceOps st1 (.Word true [0x66, 0x6F, 0x6F]) = .next st2 ∧
        st1.sink = (EncState.new ([] : List SinkCall)).sink ++
          [.chunk "foo" (EncState.new ([] : List SinkCall)).current_style] ∧
        st2.sink = st1.sink ++
          (if true || lastNonAlnum (wordEmitText (hyphen (EncState.new ([] : List SinkCall)))
              (EncState.new ([] : List SinkCall)).font_idx [0x66, 0x6F, 0x6F])
           then [.chunk " " (EncState.new ([] : List SinkCall)).current_style] else []) ∧
        st2.word_incomplete = false :=
  ⟨rfl, C6_word_incomplete_suppression.1 (EncState.new []) "foo" true [0x66, 0x6F, 0x6F] rfl⟩

/-- C5 (amended): with a page offset table in hand, a short read (or an
unreadable position) makes `load_page` return an `Err`; but a page index
outside the table — `page_number = 0` or `page_number` past the table length —
panics at the `page_table[page_number - 1]` slice index (a process abort), it
does not return an `InputCorrupt` error. -/
theorem C5_load_page_errors :
    ∀ (file : List Nat) (page_table : List Int) (p : Nat) (m : Bool),
      p < 2 ^ 64 → page_table.length < 2 ^ 64 →
      ((p = 0 ∨ page_table.length < p) →
        load_page file page_table p m = .aborted "index out of range")
      ∧ (1 ≤ p → p ≤ page_table.length →
        (load_page file page_table p m).isAborted = false) := by
  intro file page_table p m hp htab
  constructor
  · intro hout
    have hidx : page_table.length ≤ (p + (2 ^ 64 - 1)) % 2 ^ 64 := by
      rcases hout with h0 | hgt
      · subst h0; omega
      · omega
    unfold load_page
    dsimp only
    rw [List.get?_eq_none.mpr hidx]
  · intro h1 h2
    have hidx : (p + (2 ^ 64 - 1)) % 2 ^ 64 = p - 1 := by omega
    have hlt : p - 1 < page_table.length := by omega
    obtain ⟨a, ha⟩ : ∃ a, page_table.get? (p - 1) = some a :=
      ⟨page_table.get ⟨p - 1, hlt⟩, List.get?_eq_get hlt⟩
    unfold load_page
    dsimp only
    rw [hidx, ha]
    dsimp only
    repeat' split
    all_goals rfl

/-- C5 counterexample: requesting page 2 of a one-entry offset table panics
(slice index out of bounds) instead of returning an error result. -/
theorem C5_counterexample :
    load_page [] [7] 2 true = .aborted "index out of range" := rfl

/-- Witness for `C5_load_page_errors`: the aborting out-of-range case at
page 2 of a one-entry table, and the error-returning in-range case at page 1
of an empty file. -/
theorem C5_load_page_errors_witness :
    ((2 : Nat) < 2 ^ 64 ∧ ([7] : List Int).length < 2 ^ 64 ∧
      (2 = 0 ∨ ([7] : List Int).length < 2) ∧
      load_page [] [7] 2 true = .aborted "index out of range")
    ∧ ((1 : Nat) ≤ 1 ∧ 1 ≤ ([7] : List Int).length ∧
      (load_page [] [7] 1 true).isAborted = false) :=
  ⟨⟨by decide, by decide, by decide,
    (C5_load_page_errors [] [7] 2 true (by decide) (by decide)).1 (by decide)⟩,
   ⟨by decide, by decide,
    (C5_load_page_errors [] [7] 1 true (by decide) (by decide)).2 (by decide) (by decide)⟩⟩

/-! ## Structured-sink invariants -/

/-- Two adjacent pieces are acceptable unless both are chunks of equal style. -/
def pairOk : Piece → Piece → Bool
  | .Chunk s _, .Chunk s' _ => decide (s ≠ s')
  | _, _ => true

/-- No two adjacent chunk pieces of equal style. -/
def adjOkB : List Piece → Bool
  | [] => true
  | [_] => true
  | a :: b :: l => pairOk a b && adjOkB (b :: l)

/-- The sink invariant: at least one segment, and in every segment no two
adjacent chunk pieces share a style. -/
def InvP (fl : ForFlutter) : Prop :=
  fl.segments ≠ [] ∧ ∀ sg ∈ fl.segments, adjOkB sg.pieces = true

theorem pairOk_congr (x y z : Piece) (h : pieceStyleOf y = pieceStyleOf z) :
    pairOk x y = pairOk x z := by
  cases x <;> cases y <;> cases z <;> simp_all [pieceStyleOf, pairOk]

theorem pushPieceList_cons_ex (y : Piece) (l : List Piece) (p : Piece) :
    ∃ z zs, pushPieceList (y :: l) p = z :: zs ∧ pieceStyleOf z = pieceStyleOf y := by
  cases l with
  | nil =>
    cases y with
    | Chunk s t =>
      cases p with
      | Chunk ns nt =>
        by_cases hst : s = ns
        · exact ⟨.Chunk s (t ++ nt), [], by simp [pushPieceList, hst], rfl⟩
        · exact ⟨.Chunk s t, [.Chunk ns nt], by simp [pushPieceList, hst], rfl⟩
      | Link u c => exact ⟨_, _, rfl, rfl⟩
      | PageRef n => exact ⟨_, _, rfl, rfl⟩
      | SearchWord w => exact ⟨_, _, rfl, rfl⟩
    | Link u c => exact ⟨_, _, rfl, rfl⟩
    | PageRef n => exact ⟨_, _, rfl, rfl⟩
    | SearchWord w => exact ⟨_, _, rfl, rfl⟩
  | cons w l2 => exact ⟨y, pushPieceList (w :: l2) p, rfl, rfl⟩

theorem adjOkB_push (ps : List Piece) (p : Piece) (h : adjOkB ps = true) :
    adjOkB (pushPieceList ps p) = true := by
  induction ps with
  | nil => cases p <;> rfl
  | cons y l ih =>
    cases l with
    | nil =>
      cases y with
      | Chunk s t =>
        cases p with
        | Chunk ns nt =>
          by_cases hst : s = ns
          · simp [pushPieceList, hst, adjOkB]
          · simp [pushPieceList, hst, adjOkB, pairOk]
        | Link u c => rfl
        | PageRef n => rfl
        | SearchWord w => rfl
      | Link u c => cases p <;> simp [pushPieceList, adjOkB, pairOk]
      | PageRef n => cases p <;> simp [pushPieceList, adjOkB, pairOk]
      | SearchWord w => cases p <;> simp [pushPieceList, adjOkB, pairOk]
    | cons w l2 =>
      have h1 : pairOk y w = true := by
        simp [adjOkB] at h; exact h.1
      have h2 : adjOkB (w :: l2) = true := by
        simp [adjOkB] at h; exact h.2
      obtain ⟨z, zs, hz, hstyle⟩ := pushPieceList_cons_ex w l2 p
      show adjOkB (y :: pushPieceList (w :: l2) p) = true
      rw [hz]
      have : adjOkB (z :: zs) = true := hz ▸ ih h2
      simp [adjOkB, this, ← pairOk_congr y w z hstyle.symm, h1]

theorem pushPieceList_merge (ps : List Piece) (s : ChunkStyle) (t nt : String) :
    pushPieceList (ps ++ [.Chunk s t]) (.Chunk s nt) = ps ++ [.Chunk s (t ++ nt)] := by
  induction ps with
  | nil => simp [pushPieceList]
  | cons x l ih =>
    rcases hcons : l ++ [Piece.Chunk s t] with _ | ⟨w, l2⟩
    · simp at hcons
    · rw [List.cons_append, hcons]
      show x :: pushPieceList (w :: l2) (.Chunk s nt) = _
      rw [← hcons, ih]
      simp

theorem updateLast_ne_nil (f : Segment → Segment) (segs : List Segment) (h : segs ≠ []) :
    updateLast f segs ≠ [] := by
  cases segs with
  | nil => exact absurd rfl h
  | cons s ss => cases ss <;> simp [updateLast]

theorem updateLast_forall (f : Segment → Segment) (P : Segment → Prop)
    (hf : ∀ s, P s → P (f s)) :
    ∀ (segs : List Segment), (∀ s ∈ segs, P s) → ∀ s ∈ updateLast f segs, P s := by
  intro segs
  induction segs with
  | nil => intro _ s hs; simp [updateLast] at hs
  | cons a ss ih =>
    intro hall s hs
    cases ss with
    | nil =>
      simp [updateLast] at hs
      subst hs
      exact hf a (hall a (by simp))
    | cons b ss2 =>
      simp only [updateLast, List.mem_cons] at hs
      rcases hs with h | h
      · subst h; exact hall s (by simp)
      · exact ih (fun x hx => hall x (by simp [hx])) s (by simpa using h)

theorem invp_push_piece_samestyle (fl : ForFlutter) (p : Piece) (h : InvP fl) :
    InvP (fl.push_piece_samestyle p) := by
  obtain ⟨hne, hall⟩ := h
  refine ⟨updateLast_ne_nil _ _ hne, ?_⟩
  exact updateLast_forall _ (fun sg => adjOkB sg.pieces = true)
    (fun sg hsg => adjOkB_push sg.pieces p hsg) fl.segments hall

theorem invp_fl_push_piece (fl : ForFlutter) (style : SegmentStyle) (p : Piece)
    (h : InvP fl) : InvP (fl.fl_push_piece style p) := by
  obtain ⟨hne, hall⟩ := h
  unfold ForFlutter.fl_push_piece
  cases hlast : fl.segments.getLast? with
  | none => exact ⟨hne, hall⟩
  | some last =>
    dsimp only
    by_cases hst : last.style = style
    · rw [if_pos hst]
      refine ⟨updateLast_ne_nil _ _ hne, ?_⟩
      exact updateLast_forall _ (fun sg => adjOkB sg.pieces = true)
        (fun sg hsg => adjOkB_push sg.pieces p hsg) fl.segments hall
    · rw [if_neg hst]
      refine ⟨by simp, ?_⟩
      intro sg hsg
      rcases List.mem_append.mp hsg with hin | hin
      · exact hall sg hin
      · simp at hin
        subst hin
        cases p <;> rfl

theorem invp_applyCall (fl : ForFlutter) (c : SinkCall) (h : InvP fl) :
    InvP (applyCall fl c) := by
  cases c with
  | chunk s style =>
    show InvP (ForFlutter.chunk fl s style)
    unfold ForFlutter.chunk
    exact invp_fl_push_piece _ _ _ ⟨h.1, h.2⟩
  | link u c => exact invp_push_piece_samestyle fl _ h
  | pageref n => exact invp_push_piece_samestyle fl _ h
  | searchword s => exact invp_push_piece_samestyle fl _ h

theorem invp_runCalls (calls : List SinkCall) :
    ∀ (fl : ForFlutter), InvP fl → InvP (runCalls fl calls) := by
  induction calls with
  | nil => intro fl h; exact h
  | cons c cs ih => intro fl h; exact ih (applyCall fl c) (invp_applyCall fl c h)

theorem invp_new : InvP ForFlutter.new := by
  refine ⟨by simp [ForFlutter.new], ?_⟩
  intro sg hsg
  simp [ForFlutter.new] at hsg
  subst hsg
  rfl

/-- C7: in every segment the sink produces, no two adjacent `Chunk` pieces
have equal `ChunkStyle`: a chunk pushed onto a segment whose last piece is a
chunk of the same style is merged into it by text concatenation, every sink
operation preserves the invariant, and every state reachable from
`ForFlutter::new` by chunk/link/pageref/searchword calls satisfies it. -/
theorem C7_adjacency_invariant :
    (∀ (seg_style : SegmentStyle) (ps : List Piece) (s : ChunkStyle) (t nt : String),
      Segment.push_piece ⟨seg_style, ps ++ [.Chunk s t]⟩ (.Chunk s nt)
        = ⟨seg_style, ps ++ [.Chunk s (t ++ nt)]⟩)
    ∧ (∀ (fl : ForFlutter) (c : SinkCall), InvP fl → InvP (applyCall fl c))
    ∧ (∀ calls : List SinkCall, InvP (runCalls ForFlutter.new calls)) := by
  refine ⟨?_, invp_applyCall, fun calls => invp_runCalls calls ForFlutter.new invp_new⟩
  intro seg_style ps s t nt
  show Segment.mk seg_style (pushPieceList (ps ++ [.Chunk s t]) (.Chunk s nt)) = _
  rw [pushPieceList_merge]

/-- Witness for `C7_adjacency_invariant`: the invariant holds of the fresh
sink and is preserved by a first chunk call. -/
theorem C7_adjacency_invariant_witness :
    InvP ForFlutter.new
    ∧ InvP (applyCall ForFlutter.new (.chunk "a" Style.default)) :=
  ⟨invp_new, C7_adjacency_invariant.2.1 ForFlutter.new (.chunk "a" Style.default) invp_new⟩

/-! ## Plain-text conservation lemmas -/

theorem plain_applyCall (fl : ForFlutter) (c : SinkCall) :
    (applyCall fl c).plain = fl.plain ++ chunkTextOf c := by
  cases c with
  | chunk s style =>
    show (ForFlutter.chunk fl s style).plain = _
    unfold ForFlutter.chunk ForFlutter.fl_push_piece
    dsimp only
    repeat' split
    all_goals rfl
  | link u c => show fl.plain = fl.plain ++ "" ; simp
  | pageref n => show fl.plain = fl.plain ++ "" ; simp
  | searchword s => show fl.plain = fl.plain ++ "" ; simp

theorem plain_runCalls (calls : List SinkCall) :
    ∀ (fl : ForFlutter), (runCalls fl calls).plain = fl.plain ++ concatChunkTexts calls := by
  induction calls with
  | nil => intro fl; show fl.plain = fl.plain ++ "" ; simp
  | cons c cs ih =>
    intro fl
    show (runCalls (applyCall fl c) cs).plain = _
    rw [ih (applyCall fl c), plain_applyCall]
    show _ = fl.plain ++ (chunkTextOf c ++ concatChunkTexts cs)
    rw [String.append_assoc]

/-- C8: the sink's `plain` string equals the in-order concatenation of every
text ever passed to `chunk`, whatever merging or segment-splitting happened;
`link`, `pageref` and `searchword` never change `plain`, so their contents
never enter it. -/
theorem C8_plain_text_conservation :
    (∀ calls : List SinkCall, (runCalls ForFlutter.new calls).plain = concatChunkTexts calls)
    ∧ (∀ (fl : ForFlutter) (url content : String), (fl.link url content).plain = fl.plain)
    ∧ (∀ (fl : ForFlutter) (n : Nat), (fl.pageref n).plain = fl.plain)
    ∧ (∀ (fl : ForFlutter) (s : String), (fl.searchword s).plain = fl.plain) := by
  refine ⟨?_, fun _ _ _ => rfl, fun _ _ => rfl, fun _ _ => rfl⟩
  intro calls
  rw [plain_runCalls calls ForFlutter.new]
  show "" ++ _ = _
  simp
